import Mathlib

/-!
Shallow embedding of the Candidate Discovery & Vendor-Fingerprinting Engine
from `hotel_agent_script.py`, together with proofs that settle the frozen
claims about it.  Python strings are modelled by Lean `String`; the Python
string helpers used by the script (`strip`, `lower`, `startswith`, the `in`
substring test, slicing) are modelled character-wise on `String.data`.
Network, LLM and HTML-parsing collaborators (httpx, Gemini, BeautifulSoup,
`re`) are modelled as explicit function parameters: the engine's own logic
is translated from the source, while collaborator outputs are inputs.
-/

/-! ### Python string primitives -/

/-- Whitespace predicate used by Python `str.strip()` (ASCII fragment). -/
def pyIsSpace (c : Char) : Bool :=
  c == ' ' || c == '\t' || c == '\n' || c == '\r' || c == '\x0b' || c == '\x0c'

/-- Remove leading whitespace characters. -/
def lstripChars (l : List Char) : List Char := l.dropWhile pyIsSpace

/-- Remove trailing whitespace characters. -/
def rstripChars (l : List Char) : List Char := (l.reverse.dropWhile pyIsSpace).reverse

/-- Python `s.strip()`. -/
def stripChars (l : List Char) : List Char := rstripChars (lstripChars l)

/-- Python `s.strip()` on `String`. -/
def pyStrip (s : String) : String := ⟨stripChars s.data⟩

/-- Python `s.lower()` (ASCII fragment: `Char.toLower` lowercases ASCII letters). -/
def pyLower (s : String) : String := ⟨s.data.map Char.toLower⟩

/-- Is `p` a (character-wise) prefix of `s`?  Helper for the substring test. -/
def isPrefixCh : List Char → List Char → Bool
  | [], _ => true
  | _ :: _, [] => false
  | a :: as, b :: bs => a == b && isPrefixCh as bs

/-- Does `s` contain `p` as a contiguous substring?  Python `p in s`. -/
def containsSub : List Char → List Char → Bool
  | [], p => p.isEmpty
  | s@(_ :: rest), p => isPrefixCh p s || containsSub rest p

/-- Python `p in s` on `String` (substring containment). -/
def strContains (s p : String) : Bool := containsSub s.data p.data

/-- Python `s.startswith(pre)`. -/
def pyStartsWith (s pre : String) : Bool := isPrefixCh pre.data s.data

/-- Python slicing `s[:n]` (by characters, as Python slices by code points). -/
def pyTake (n : Nat) (s : String) : String := ⟨s.data.take n⟩

/-! ### URL helpers (`normalize_url`, `host`, source lines 83-96) -/

/-- Branch logic of `normalize_url` after the initial `strip`, for the
`base=None` call sites (the only ones the verified claims exercise; with
`base=None` the `if base and u.startswith("/")` branch of the source is
unreachable, so it is elided here). -/
def normCore (v : String) : String :=
  if v = "" then ""
  else if pyStartsWith v "//" then "https:" ++ v
  else if !(pyStartsWith v "http://" || pyStartsWith v "https://") then "https://" ++ v
  else v

/-- `normalize_url(u)` (source lines 83-93, `base=None`): strip, default the
scheme to https, resolve protocol-relative form. -/
def normalize_url (u : String) : String := normCore (pyStrip u)

/-- Characters allowed in a URL scheme by `urllib.parse`. -/
def schemeChar (c : Char) : Bool := c.isAlpha || c.isDigit || c == '+' || c == '-' || c == '.'

/-- WHATWG C0-control-or-space predicate: `urllib.parse` strips these from
both ends of a URL before splitting it. -/
def isC0OrSpace (c : Char) : Bool := c.toNat ≤ 32

/-- `urllib.parse` removes tab, CR and LF anywhere in the URL. -/
def removeTabCrLf (l : List Char) : List Char :=
  l.filter (fun c => !(c == '\t' || c == '\r' || c == '\n'))

/-- Shared preprocessing of `urllib.parse.urlsplit`: strip C0 controls and
spaces at both ends, drop tab/CR/LF everywhere. -/
def urlPreprocess (url : String) : List Char :=
  removeTabCrLf (((url.data.dropWhile isC0OrSpace).reverse.dropWhile isC0OrSpace).reverse)

/-- Scheme splitting of `urllib.parse.urlsplit`: when a ':' occurs at
position `i > 0`, the first character is a letter and everything before the
colon is a scheme character, the scheme and colon are dropped. -/
def dropScheme (l : List Char) : List Char :=
  match l.findIdx? (fun c => c == ':') with
  | none => l
  | some i =>
    if 0 < i && (l.take i).all schemeChar &&
        (match l.head? with | some c => c.isAlpha | none => false)
    then l.drop (i + 1) else l

/-- Characters ending the netloc in `urllib.parse._splitnetloc`. -/
def netlocDelim (c : Char) : Bool := c == '/' || c == '?' || c == '#'

/-- `urlparse(url).netloc`: the authority component, present only after a
`//` (the bracketed-IPv6 validation of `urllib.parse`, which can only raise,
is elided). -/
def netlocOf (url : String) : String :=
  let l := dropScheme (urlPreprocess url)
  if isPrefixCh ['/', '/'] l then ⟨(l.drop 2).takeWhile (fun c => !netlocDelim c)⟩
  else ""

/-- `host(url)` (source lines 95-96): `urlparse(url).netloc.lower()`. -/
def host (url : String) : String := pyLower (netlocOf url)

/-- `urlparse(url).path`: what remains after scheme and netloc, cut at the
first '?' or '#'. -/
def urlPath (url : String) : String :=
  let l := dropScheme (urlPreprocess url)
  let l := if isPrefixCh ['/', '/'] l then (l.drop 2).dropWhile (fun c => !netlocDelim c) else l
  ⟨l.takeWhile (fun c => !(c == '?' || c == '#'))⟩

/-! ### Vendor fingerprints and classification (source lines 99-179) -/

/-- `VENDOR_PATTERNS` (source lines 99-118); a Python dict preserves
insertion order, so it is modelled as an association list. -/
def VENDOR_PATTERNS : List (String × List String) := [
  ("SynXis (Sabre Hospitality)",
    ["synxis.com", "be.synxis.com", "synxis.com/rez", "synxis.com/reservations"]),
  ("iHotelier / TravelClick (Amadeus)",
    ["ihotelier.com", "travelclick.com", "reservations.travelclick.com", "secure-reservation"]),
  ("Cloudbeds", ["cloudbeds.com", "hotels.cloudbeds.com"]),
  ("WebRezPro", ["webrezpro.com", "reservations.webrezpro.com"]),
  ("StayNTouch", ["stayntouch", "stayntouch.com"]),
  ("SHR / Windsurfer", ["windsurfer", "windsurfercrs", "shrgroup", "shr.global", "shr"])]

/-- `AFFILIATE_PATTERNS` (source lines 120-125). -/
def AFFILIATE_PATTERNS : List String :=
  ["guestreservations.com", "reservationdesk.com", "hotelplanner.com", "reservations.com"]

/-- The nested `for vendor, patterns ... for p ...` loop of
`classify_vendor_from_url`: first vendor whose pattern occurs in the
lowercased URL `u` or in the host `h`. -/
def firstVendorMatch (u h : String) : List (String × List String) → Option String
  | [] => none
  | (vendor, patterns) :: rest =>
    if patterns.any (fun p => strContains u (pyLower p) || strContains h (pyLower p))
    then some vendor
    else firstVendorMatch u h rest

/-- `classify_vendor_from_url(url)` (source lines 127-144): vendor patterns
first (strength "High"), then affiliate hosts ("Low"), else Unknown/"Low". -/
def classify_vendor_from_url (url : String) : String × String :=
  let u := pyLower url
  let h := host url
  match firstVendorMatch u h VENDOR_PATTERNS with
  | some vendor => (vendor, "High")
  | none =>
    if AFFILIATE_PATTERNS.any (fun a => strContains h a)
    then ("Affiliate/OTA (Not official CRS)", "Low")
    else ("Unknown", "Low")

/-- Booking-ish keywords used by the score bonus (source line 168). -/
def SCORE_HINT_KEYWORDS : List String :=
  ["/book", "/booking", "/reservations", "reservation", "availability"]

/-- Booking-ish keywords used by the Unknown-to-Medium bump (source line 176). -/
def BUMP_KEYWORDS : List String := ["/book", "/booking", "/reservations", "availability"]

/-- The per-URL score computed inside `best_vendor_from_evidence`
(source lines 160-170): +100 for a High vendor match, +10 for the affiliate
label, +15 when the lowercased URL contains a booking-ish keyword. -/
def scoreURL (u : String) : Nat :=
  let vc := classify_vendor_from_url u
  let s1 := if vc.2 = "High" then 100 else 0
  let s2 := if vc.1 = "Affiliate/OTA (Not official CRS)" then s1 + 10 else s1
  if SCORE_HINT_KEYWORDS.any (fun x => strContains (pyLower u) x) then s2 + 15 else s2

/-- Stable descending insertion by key: `x` goes in front of the first
element whose key it reaches, so among equal keys the original order is
kept. -/
def insertByScore {α : Type} (key : α → Nat) (x : α) : List α → List α
  | [] => [x]
  | y :: ys => if key y ≤ key x then x :: y :: ys else y :: insertByScore key x ys

/-- Stable sort, descending by key: the extensional behaviour of Python
`list.sort(key=..., reverse=True)` (documented stable), realised as stable
insertion sort. -/
def sortByScoreDesc {α : Type} (key : α → Nat) : List α → List α
  | [] => []
  | x :: xs => insertByScore key x (sortByScoreDesc key xs)

/-- The `(score, vendor, conf, u)` tuple built for each URL inside
`best_vendor_from_evidence` (source lines 159-170). -/
def scoreEntry (u : String) : Nat × String × String × String :=
  let vc := classify_vendor_from_url u
  (scoreURL u, vc.1, vc.2, u)

/-- `scored.sort(..., reverse=True)` followed by `scored[0]` (source lines
172-173): the top-scored entry, earliest first among ties. -/
def bestTop (evidence_urls : List String) : Nat × String × String × String :=
  (sortByScoreDesc (fun t => t.1) (evidence_urls.map scoreEntry)).headD
    (0, "Unknown", "Low", "")

/-- `best_vendor_from_evidence(evidence_urls)` (source lines 146-179): score
every URL, stable-sort descending by score (Python `list.sort` with
`reverse=True` is stable), take the top, and bump an Unknown but booking-ish
winner to "Medium".  Returns `(vendor, evidence_url, confidence)`. -/
def best_vendor_from_evidence (evidence_urls : List String) : String × String × String :=
  if evidence_urls = [] then ("Unknown", "", "Low")
  else
    let top := bestTop evidence_urls
    (top.2.1, top.2.2.2,
      if top.2.1 == "Unknown" && BUMP_KEYWORDS.any (fun x => strContains (pyLower top.2.2.2) x)
      then "Medium" else top.2.2.1)

/-! ### Evidence deduplication and finding assembly (source lines 422-509) -/

/-- The seen-set deduplication loop used throughout the script
(source lines 487-491): keep the first occurrence of each URL. -/
def dedupAux (seen : List String) : List String → List String
  | [] => []
  | u :: rest =>
    if seen.contains u then dedupAux seen rest
    else u :: dedupAux (u :: seen) rest

/-- De-dupe preserving first-seen order (source lines 486-492). -/
def dedupFirst (l : List String) : List String := dedupAux [] l

/-- `BookingFinding` (source lines 422-429). -/
structure BookingFinding where
  hotel_name : String
  evidence_urls : List String
  vendor : String
  vendor_evidence_url : String
  confidence : String
  notes : String
deriving DecidableEq, Repr

/-- The pure tail of `fingerprint_booking_vendor` (source lines 486-509):
given the hotel name together with the evidence URLs and notes gathered from
the network collaborators (lines 431-484), de-dupe the evidence, pick the
best vendor, append the two conditional notes and assemble the (truncated)
finding. -/
def assembleFinding (hotel_name : String) (evidence : List String)
    (notes : List String) : BookingFinding :=
  let evidence := dedupFirst evidence
  let r := best_vendor_from_evidence evidence
  let vendor := r.1
  let vendor_url := r.2.1
  let conf := r.2.2
  let notes :=
    if pyStartsWith vendor "Affiliate"
    then notes ++ ["Top evidence appears affiliate/OTA; may not reflect official CRS."]
    else notes
  let notes :=
    if vendor = "Unknown"
    then notes ++ ["No strong vendor fingerprint found; evidence may be generic booking paths."]
    else notes
  { hotel_name := hotel_name
    evidence_urls := evidence.take 80
    vendor := vendor
    vendor_evidence_url := vendor_url
    confidence := conf
    notes := pyTake 2000 (String.intercalate " " notes) }

/-! ### Bot-wall detector (source lines 65-81) -/

/-- `BOT_BLOCK_PATTERNS` (source lines 65-75). -/
def BOT_BLOCK_PATTERNS : List String :=
  ["are you a human", "verify you are human", "verification required", "captcha",
   "access denied", "unusual traffic", "cloudflare", "checking your browser",
   "security check"]

/-- `looks_like_bot_block(html)` (source lines 77-81). -/
def looks_like_bot_block (html : String) : Bool :=
  if html = "" then false
  else BOT_BLOCK_PATTERNS.any (fun p => strContains (pyLower html) p)

/-- Case-insensitive phrase containment, the notion used by the claims:
the phrase occurs in the body once both are lowercased. -/
def ciContains (body phrase : String) : Bool :=
  strContains (pyLower body) (pyLower phrase)

/-! ### Email parsing and the per-run pipeline (source lines 182-259, 548-614)

The script's collaborators that are external libraries (BeautifulSoup's
anchor extraction, the `re` module's match of the ZoomInfo line pattern) and
the network-gathering phase of `fingerprint_booking_vendor` are modelled as
explicit function parameters; every guard, dedup and assembly step around
them is translated from the source. -/

/-- `PropertyRow` (source lines 182-186). -/
structure PropertyRow where
  hotel_name : String
  category : Option String := none
  score : Option Nat := none
deriving DecidableEq, Repr

/-- External capabilities consumed by the engine, modelled as functions:
`anchorTexts body` is the text of each anchor found by BeautifulSoup
(`a.get_text(" ", strip=True)` per `<a>` tag, source line 207);
`zoomLineMatch line` is the `(group 1, group 2, group 3)` result of the
`re.match` against the whitespace-collapsed line (source line 231);
`gatherEvidence` / `gatherNotes` are the evidence URLs and notes collected
from TravelWeekly, the official site and DuckDuckGo for a hotel name
(source lines 431-484). -/
structure ExternalServices where
  anchorTexts : String → List String
  zoomLineMatch : String → Option (String × String × Nat)
  gatherEvidence : String → List String
  gatherNotes : String → List String

/-- Python `re.sub(r"\s+", " ", s).strip()` (source line 230), via the
equivalent `" ".join(s.split())`: whitespace runs collapse to single spaces
and the ends are stripped. -/
def wsCollapse (s : String) : String :=
  String.intercalate " " ((s.split pyIsSpace).filter (fun t => t ≠ ""))

/-- Python `body.splitlines()` restricted to the `\n`/`\r` line breaks
(the source immediately strips each line and drops empty ones, so the
splitting of a `\r\n` pair into an extra empty line is immaterial). -/
def splitLinesOf (s : String) : List String :=
  s.split (fun c => c == '\n' || c == '\r')

/-- The order-preserving de-dupe of parsed rows by lowercased name
(source lines 214-221). -/
def dedupeRowsAux (seen : List String) : List PropertyRow → List PropertyRow
  | [] => []
  | r :: rest =>
    if seen.contains (pyLower r.hotel_name) then dedupeRowsAux seen rest
    else r :: dedupeRowsAux (pyLower r.hotel_name :: seen) rest

/-- `parse_zoominfo_email(body)` (source lines 188-240): anchors branch when
the body looks like HTML, otherwise the per-line regex branch. -/
def parse_zoominfo_email (E : ExternalServices) (body : String) : List PropertyRow :=
  let body := pyStrip body
  if body = "" then []
  else if strContains (pyLower body) "<a" && strContains (pyLower body) "</a>" then
    let rows := (E.anchorTexts body).filterMap (fun t =>
      let name := pyStrip t
      if name = "" then none
      else if name.length < 2 then none
      else some { hotel_name := name })
    dedupeRowsAux [] rows
  else
    let lines := ((splitLinesOf body).map pyStrip).filter (fun ln => ln ≠ "")
    lines.filterMap (fun ln =>
      match E.zoomLineMatch (wsCollapse ln) with
      | some (g1, g2, g3) =>
        let name := pyStrip g1
        if name = "" then none
        else some { hotel_name := name, category := some (pyStrip g2), score := some g3 }
      | none => none)

/-- `detect_input_mode(body)` (source lines 242-259). -/
def detect_input_mode (body : String) : String :=
  let b := pyStrip body
  if b = "" then "single"
  else if strContains b "Property Management Software" || strContains b "Reservation System"
      || strContains b "Global Distribution System" then "list"
  else if strContains (pyLower b) "<a" && strContains (pyLower b) "</a>" then "list"
  else if !(strContains b "\n") && b.length ≤ 140 then "single"
  else "single"

/-- The de-dupe of properties in `main` (source lines 566-574): skip rows
whose stripped lowercased name is empty or already seen. -/
def cleanPropsAux (seen : List String) : List PropertyRow → List PropertyRow
  | [] => []
  | p :: rest =>
    let k := pyLower (pyStrip p.hotel_name)
    if k = "" || seen.contains k then cleanPropsAux seen rest
    else p :: cleanPropsAux (k :: seen) rest

/-- The property list that `main` iterates over (source lines 548-574):
empty input returns early with no properties; otherwise the parsed list
(falling back to the whole input as a single name) is de-duplicated. -/
def mainProperties (E : ExternalServices) (input : String) : List PropertyRow :=
  let EMAIL_INPUT := pyStrip input
  if EMAIL_INPUT = "" then []
  else
    let properties :=
      if detect_input_mode EMAIL_INPUT = "list" then
        let ps := parse_zoominfo_email E EMAIL_INPUT
        if ps = [] then [{ hotel_name := EMAIL_INPUT }] else ps
      else [{ hotel_name := EMAIL_INPUT }]
    cleanPropsAux [] properties

/-- The findings produced by `main`'s loop (source lines 583-594): one
`BookingFinding` per de-duplicated property, via the pure tail of
`fingerprint_booking_vendor` applied to the gathered evidence. -/
def mainFindings (E : ExternalServices) (input : String) : List BookingFinding :=
  (mainProperties E input).map (fun p =>
    let hotel_name := pyStrip p.hotel_name
    assembleFinding hotel_name (E.gatherEvidence hotel_name) (E.gatherNotes hotel_name))

/-! ### Spec-side definitions for refinement comparison -/

/-- First-seen deduplication as the spec describes it: keep each element's
first occurrence, delete its later duplicates. -/
def dedupSpec : List String → List String
  | [] => []
  | u :: rest => u :: dedupSpec (rest.filter (fun v => !(v == u)))
termination_by l => l.length
decreasing_by
  simp only [List.length_cons]
  exact Nat.lt_succ_of_le (List.length_filter_le _ _)

/-- Follows the spec's words, not the source: the deduplication key the spec
prescribes ("scheme + host + path, trailing slash insensitive") — the
normalized URL with one trailing slash removed. -/
def specDedupKey (u : String) : String :=
  let n := normalize_url u
  if n.data.getLast? = some '/' then ⟨n.data.dropLast⟩ else n

/-! ### Lemmas about the stable sort and the top pick -/

lemma mem_insertByScore {α : Type} (key : α → Nat) (a x : α) (l : List α) :
    x ∈ insertByScore key a l ↔ x = a ∨ x ∈ l := by
  induction l with
  | nil => simp [insertByScore]
  | cons y ys ih =>
    simp only [insertByScore]
    split
    · simp [List.mem_cons]
    · simp only [List.mem_cons, ih]
      tauto

lemma insertByScore_ne_nil {α : Type} (key : α → Nat) (a : α) (l : List α) :
    insertByScore key a l ≠ [] := by
  cases l with
  | nil => simp [insertByScore]
  | cons y ys =>
    simp only [insertByScore]
    split <;> simp

lemma mem_sortByScoreDesc {α : Type} (key : α → Nat) (x : α) (l : List α) :
    x ∈ sortByScoreDesc key l ↔ x ∈ l := by
  induction l with
  | nil => simp [sortByScoreDesc]
  | cons y ys ih =>
    simp only [sortByScoreDesc, mem_insertByScore, ih, List.mem_cons]

lemma sortByScoreDesc_ne_nil {α : Type} (key : α → Nat) (l : List α) (h : l ≠ []) :
    sortByScoreDesc key l ≠ [] := by
  cases l with
  | nil => exact absurd rfl h
  | cons y ys => exact insertByScore_ne_nil _ _ _

lemma bestTop_mem (l : List String) (h : l ≠ []) : ∃ u ∈ l, bestTop l = scoreEntry u := by
  have hm : l.map scoreEntry ≠ [] := by
    intro hc
    exact h (List.map_eq_nil_iff.mp hc)
  have hs := sortByScoreDesc_ne_nil (fun t => t.1) (l.map scoreEntry) hm
  obtain ⟨t, rest, ht⟩ := List.exists_cons_of_ne_nil hs
  have htop : bestTop l = t := by
    unfold bestTop
    rw [ht]
    rfl
  have htm : t ∈ l.map scoreEntry := by
    have : t ∈ sortByScoreDesc (fun t => t.1) (l.map scoreEntry) := by
      rw [ht]; exact List.mem_cons_self _ _
    exact (mem_sortByScoreDesc _ _ _).mp this
  obtain ⟨u, hu, hfu⟩ := List.mem_map.mp htm
  exact ⟨u, hu, by rw [htop, hfu]⟩

/-- The result of `best_vendor_from_evidence` on a non-empty list is the
classification of one of its members, with the Unknown-to-Medium bump. -/
lemma best_vendor_shape (l : List String) (h : l ≠ []) :
    ∃ u ∈ l, best_vendor_from_evidence l =
      ((classify_vendor_from_url u).1, u,
        if (classify_vendor_from_url u).1 == "Unknown"
            && BUMP_KEYWORDS.any (fun x => strContains (pyLower u) x)
        then "Medium" else (classify_vendor_from_url u).2) := by
  obtain ⟨u, hu, htop⟩ := bestTop_mem l h
  refine ⟨u, hu, ?_⟩
  unfold best_vendor_from_evidence
  rw [if_neg h, htop]
  rfl

/-! ### Lemmas about the classifier and the score -/

lemma firstVendorMatch_mem {u h v : String} :
    ∀ {L : List (String × List String)}, firstVendorMatch u h L = some v →
      v ∈ L.map Prod.fst := by
  intro L
  induction L with
  | nil => intro hc; simp [firstVendorMatch] at hc
  | cons e rest ih =>
    intro hfm
    obtain ⟨vendor, patterns⟩ := e
    simp only [firstVendorMatch] at hfm
    split at hfm
    · simp only [Option.some.injEq] at hfm
      simp [hfm]
    · simpa using Or.inr (ih hfm)

/-- Zeta-reduced unfolding of `classify_vendor_from_url`. -/
lemma classify_eq (url : String) :
    classify_vendor_from_url url =
      match firstVendorMatch (pyLower url) (host url) VENDOR_PATTERNS with
      | some vendor => (vendor, "High")
      | none =>
        if AFFILIATE_PATTERNS.any (fun a => strContains (host url) a)
        then ("Affiliate/OTA (Not official CRS)", "Low")
        else ("Unknown", "Low") := rfl

/-- The three possible outcomes of the classifier. -/
lemma classify_shape (url : String) :
    (∃ v, firstVendorMatch (pyLower url) (host url) VENDOR_PATTERNS = some v ∧
          classify_vendor_from_url url = (v, "High")) ∨
    (firstVendorMatch (pyLower url) (host url) VENDOR_PATTERNS = none ∧
      (classify_vendor_from_url url = ("Affiliate/OTA (Not official CRS)", "Low") ∨
       classify_vendor_from_url url = ("Unknown", "Low"))) := by
  cases hm : firstVendorMatch (pyLower url) (host url) VENDOR_PATTERNS with
  | some v =>
    left
    exact ⟨v, rfl, by rw [classify_eq, hm]⟩
  | none =>
    right
    refine ⟨rfl, ?_⟩
    rw [classify_eq, hm]
    by_cases hb : (AFFILIATE_PATTERNS.any fun a => strContains (host url) a) = true
    · left; simp [hb]
    · right; simp [hb]

lemma classify_conf_cases (url : String) :
    (classify_vendor_from_url url).2 = "High" ∨ (classify_vendor_from_url url).2 = "Low" := by
  rcases classify_shape url with ⟨v, _, hc⟩ | ⟨_, hc | hc⟩ <;> rw [hc] <;> simp

lemma classify_high_vendor_name (url : String)
    (h : (classify_vendor_from_url url).2 = "High") :
    (classify_vendor_from_url url).1 ∈ VENDOR_PATTERNS.map Prod.fst := by
  rcases classify_shape url with ⟨v, hm, hc⟩ | ⟨_, hc | hc⟩
  · rw [hc]
    simpa using firstVendorMatch_mem hm
  · rw [hc] at h
    exact absurd h (by decide)
  · rw [hc] at h
    exact absurd h (by decide)

lemma classify_not_affiliate_of_high (url : String)
    (h : (classify_vendor_from_url url).2 = "High") :
    (classify_vendor_from_url url).1 ≠ "Affiliate/OTA (Not official CRS)" := by
  intro hc
  have hmem := classify_high_vendor_name url h
  rw [hc] at hmem
  revert hmem
  decide

lemma scoreURL_of_high (u : String) (h : (classify_vendor_from_url u).2 = "High") :
    100 ≤ scoreURL u := by
  simp only [scoreURL, if_pos h]
  split <;> split <;> omega

lemma scoreURL_of_not_high (u : String) (h : ¬(classify_vendor_from_url u).2 = "High") :
    scoreURL u ≤ 25 := by
  simp only [scoreURL, if_neg h]
  split <;> split <;> omega

lemma scoreURL_of_unknown (u : String) (h : classify_vendor_from_url u = ("Unknown", "Low")) :
    scoreURL u =
      if SCORE_HINT_KEYWORDS.any (fun x => strContains (pyLower u) x) then 15 else 0 := by
  simp only [scoreURL, h]
  by_cases hb : (SCORE_HINT_KEYWORDS.any (fun x => strContains (pyLower u) x)) = true
  · simp only [if_pos hb]
    decide
  · simp only [if_neg hb]
    decide

/-! ### Lemmas about first-seen deduplication -/

lemma mem_dedupAux (x : String) : ∀ (l seen : List String),
    x ∈ dedupAux seen l ↔ x ∈ l ∧ x ∉ seen := by
  intro l
  induction l with
  | nil => intro seen; simp [dedupAux]
  | cons u rest ih =>
    intro seen
    simp only [dedupAux]
    by_cases hc : seen.contains u = true
    · have hu : u ∈ seen := by simpa using hc
      rw [if_pos hc, ih]
      simp only [List.mem_cons]
      constructor
      · rintro ⟨hx, hs⟩
        exact ⟨Or.inr hx, hs⟩
      · rintro ⟨hx | hx, hs⟩
        · subst hx; exact absurd hu hs
        · exact ⟨hx, hs⟩
    · have hu : u ∉ seen := by simpa using hc
      rw [if_neg hc]
      simp only [List.mem_cons, ih]
      constructor
      · rintro (rfl | ⟨hx, hs⟩)
        · exact ⟨Or.inl rfl, hu⟩
        · exact ⟨Or.inr hx, fun hxs => hs (Or.inr hxs)⟩
      · rintro ⟨rfl | hx, hs⟩
        · exact Or.inl rfl
        · by_cases hxu : x = u
          · exact Or.inl hxu
          · refine Or.inr ⟨hx, fun hxs => ?_⟩
            rcases hxs with rfl | hxs'
            · exact hxu rfl
            · exact hs hxs'

lemma nodup_dedupAux : ∀ (l seen : List String), (dedupAux seen l).Nodup := by
  intro l
  induction l with
  | nil => intro seen; simp [dedupAux]
  | cons u rest ih =>
    intro seen
    simp only [dedupAux]
    split
    · exact ih seen
    · refine List.nodup_cons.mpr ⟨?_, ih (u :: seen)⟩
      intro hu
      exact ((mem_dedupAux u rest (u :: seen)).mp hu).2 (List.mem_cons_self u seen)

lemma sublist_dedupAux : ∀ (l seen : List String), List.Sublist (dedupAux seen l) l := by
  intro l
  induction l with
  | nil => intro seen; simp [dedupAux]
  | cons u rest ih =>
    intro seen
    simp only [dedupAux]
    split
    · exact List.Sublist.cons u (ih seen)
    · exact List.Sublist.cons₂ u (ih (u :: seen))

lemma dedupAux_eq_dedupSpec : ∀ (l seen : List String),
    dedupAux seen l = dedupSpec (l.filter (fun u => !(seen.contains u))) := by
  intro l
  induction l with
  | nil => intro seen; simp [dedupAux, dedupSpec]
  | cons u rest ih =>
    intro seen
    by_cases hc : seen.contains u = true
    · have hb : ¬((!(seen.contains u)) = true) := by rw [hc]; decide
      simp only [dedupAux, if_pos hc, List.filter_cons]
      rw [if_neg hb]
      exact ih seen
    · have hcf : seen.contains u = false := by
        cases h2 : seen.contains u
        · rfl
        · exact absurd h2 hc
      have hb : (!(seen.contains u)) = true := by rw [hcf]; rfl
      simp only [dedupAux, if_neg hc, List.filter_cons]
      rw [if_pos hb]
      simp only [dedupSpec]
      congr 1
      rw [ih (u :: seen), List.filter_filter]
      congr 1
      apply List.filter_congr
      intro v _
      simp only [List.contains_cons, Bool.not_or]

lemma dedupFirst_eq_dedupSpec (l : List String) : dedupFirst l = dedupSpec l := by
  unfold dedupFirst
  rw [dedupAux_eq_dedupSpec]
  congr 1
  simp

lemma mem_dedupFirst (x : String) (l : List String) : x ∈ dedupFirst l ↔ x ∈ l := by
  unfold dedupFirst
  rw [mem_dedupAux]
  simp

lemma nodup_dedupFirst (l : List String) : (dedupFirst l).Nodup := nodup_dedupAux l []

lemma sublist_dedupFirst (l : List String) : List.Sublist (dedupFirst l) l := sublist_dedupAux l []

/-! ### Lemmas about `strip` fixed points and `normalize_url` -/

lemma dropWhile_eq_self_of_head (p : Char → Bool) (l : List Char)
    (h : ∀ c, l.head? = some c → p c = false) : l.dropWhile p = l := by
  cases l with
  | nil => rfl
  | cons a t =>
    have ha := h a rfl
    simp [List.dropWhile, ha]

lemma head_dropWhile_not (p : Char → Bool) : ∀ (l : List Char) (c : Char),
    (l.dropWhile p).head? = some c → p c = false := by
  intro l
  induction l with
  | nil => intro c hc; simp [List.dropWhile] at hc
  | cons a t ih =>
    intro c hc
    by_cases hp : p a = true
    · rw [List.dropWhile_cons_of_pos hp] at hc
      exact ih c hc
    · rw [List.dropWhile_cons_of_neg hp] at hc
      obtain rfl : a = c := by simpa using hc
      cases hpa : p a
      · rfl
      · exact absurd hpa hp

lemma head_not_of_dropWhile_eq_self (p : Char → Bool) (l : List Char)
    (h : l.dropWhile p = l) : ∀ c, l.head? = some c → p c = false := by
  intro c hc
  rw [← h] at hc
  exact head_dropWhile_not p l c hc

lemma rstrip_prefix (l : List Char) : List.IsPrefix (rstripChars l) l := by
  unfold rstripChars
  have h : List.IsSuffix (l.reverse.dropWhile pyIsSpace) l.reverse :=
    List.dropWhile_suffix pyIsSpace
  have h2 := List.reverse_prefix.mpr h
  rwa [List.reverse_reverse] at h2

lemma head?_of_isPrefix {X Y : List Char} (h : List.IsPrefix X Y) {c : Char}
    (hc : X.head? = some c) : Y.head? = some c := by
  obtain ⟨t, rfl⟩ := h
  cases X with
  | nil => simp at hc
  | cons a s => simpa using hc

lemma getLast_rstrip_not (l : List Char) (c : Char)
    (hc : (rstripChars l).getLast? = some c) : pyIsSpace c = false := by
  unfold rstripChars at hc
  rw [List.getLast?_reverse] at hc
  exact head_dropWhile_not pyIsSpace l.reverse c hc

lemma stripChars_eq_self (l : List Char)
    (h1 : ∀ c, l.head? = some c → pyIsSpace c = false)
    (h2 : ∀ c, l.getLast? = some c → pyIsSpace c = false) :
    stripChars l = l := by
  have hl : lstripChars l = l := dropWhile_eq_self_of_head pyIsSpace l h1
  have hr : rstripChars l = l := by
    unfold rstripChars
    have hrev : l.reverse.dropWhile pyIsSpace = l.reverse := by
      apply dropWhile_eq_self_of_head
      intro c hc
      rw [List.head?_reverse] at hc
      exact h2 c hc
    rw [hrev, List.reverse_reverse]
  unfold stripChars
  rw [hl, hr]

lemma stripChars_idem (l : List Char) : stripChars (stripChars l) = stripChars l := by
  apply stripChars_eq_self
  · intro c hc
    have h1 : List.IsPrefix (stripChars l) (lstripChars l) := rstrip_prefix (lstripChars l)
    have h2 := head?_of_isPrefix h1 hc
    exact head_dropWhile_not pyIsSpace l c h2
  · intro c hc
    exact getLast_rstrip_not (lstripChars l) c hc

lemma pyStrip_idem (s : String) : pyStrip (pyStrip s) = pyStrip s :=
  congrArg String.mk (stripChars_idem s.data)

lemma strip_fixed_head (v : String) (hv : pyStrip v = v) :
    ∀ c, v.data.head? = some c → pyIsSpace c = false := by
  intro c hc
  have hl : stripChars v.data = v.data := congrArg String.data hv
  rw [← hl] at hc
  have h1 : List.IsPrefix (stripChars v.data) (lstripChars v.data) :=
    rstrip_prefix (lstripChars v.data)
  exact head_dropWhile_not pyIsSpace v.data c (head?_of_isPrefix h1 hc)

lemma strip_fixed_getLast (v : String) (hv : pyStrip v = v) :
    ∀ c, v.data.getLast? = some c → pyIsSpace c = false := by
  intro c hc
  have hl : stripChars v.data = v.data := congrArg String.data hv
  rw [← hl] at hc
  exact getLast_rstrip_not (lstripChars v.data) c hc

lemma str_mk_ne_empty (c : Char) (l : List Char) : (⟨c :: l⟩ : String) ≠ "" := by
  intro h
  have := congrArg String.data h
  simp at this

lemma data_append (s t : String) : (s ++ t).data = s.data ++ t.data := rfl

lemma data_ne_nil_of_ne_empty (v : String) (h : v ≠ "") : v.data ≠ [] := by
  intro hc
  apply h
  cases v with
  | mk d => cases hc; rfl

/-- Prepending a non-space-initial literal to a stripped non-empty string
leaves it stripped. -/
lemma pyStrip_append_fixed (w v : String) (c0 : Char) (hw : w.data.head? = some c0)
    (hc0 : pyIsSpace c0 = false) (hv : pyStrip v = v) (hv0 : v ≠ "") :
    pyStrip (w ++ v) = w ++ v := by
  have hvd : v.data ≠ [] := data_ne_nil_of_ne_empty v hv0
  have key : stripChars ((w ++ v).data) = (w ++ v).data := by
    rw [data_append]
    apply stripChars_eq_self
    · intro c hc
      cases hwd : w.data with
      | nil => rw [hwd] at hw; simp at hw
      | cons a t =>
        rw [hwd] at hw
        rw [hwd, List.cons_append] at hc
        have ha : a = c0 := by simpa using hw
        have hac : a = c := by simpa using hc
        rw [← hac, ha]
        exact hc0
    · intro c hc
      rw [List.getLast?_append] at hc
      have hvl : v.data.getLast? = some c := by
        cases hg : v.data.getLast? with
        | none => exact absurd (List.getLast?_eq_none_iff.mp hg) hvd
        | some d =>
          rw [hg] at hc
          simpa using hc
      exact strip_fixed_getLast v hv c hvl
  exact congrArg String.mk key
lemma startsWith_slashes (v : String) (h : pyStartsWith v "//" = true) :
    ∃ t, v.data = '/' :: '/' :: t := by
  unfold pyStartsWith at h
  cases hd : v.data with
  | nil => rw [hd] at h; simp [isPrefixCh] at h
  | cons a t1 =>
    cases t1 with
    | nil => rw [hd] at h; simp [isPrefixCh] at h
    | cons b t2 =>
      rw [hd] at h
      simp [isPrefixCh] at h
      obtain ⟨ha, hb⟩ := h
      exact ⟨t2, by rw [← ha, ← hb]⟩

lemma starts_slash_https_colon (v : String) : pyStartsWith ("https:" ++ v) "//" = false := rfl

lemma starts_slash_https_slash (v : String) :
    pyStartsWith ("https://" ++ v) "//" = false := rfl

lemma starts_https_https_slash (v : String) :
    pyStartsWith ("https://" ++ v) "https://" = true := rfl

lemma starts_https_of_slashes (v : String) (h : pyStartsWith v "//" = true) :
    pyStartsWith ("https:" ++ v) "https://" = true := by
  obtain ⟨t, ht⟩ := startsWith_slashes v h
  unfold pyStartsWith
  rw [data_append, ht]
  rfl

lemma starts_slash_of_scheme (v : String)
    (h : (pyStartsWith v "http://" || pyStartsWith v "https://") = true) :
    pyStartsWith v "//" = false := by
  have hh : ∃ t, v.data = 'h' :: t := by
    rcases Bool.or_eq_true_iff.mp h with h1 | h1 <;>
    · unfold pyStartsWith at h1
      cases hd : v.data with
      | nil => rw [hd] at h1; simp [isPrefixCh] at h1
      | cons a t =>
        rw [hd] at h1
        simp [isPrefixCh] at h1
        exact ⟨t, by rw [← h1.1]⟩
  obtain ⟨t, ht⟩ := hh
  unfold pyStartsWith
  rw [ht]
  rfl

lemma append_https_colon_ne_empty (v : String) : ("https:" ++ v) ≠ "" := by
  intro h
  have hd := congrArg String.data h
  rw [data_append] at hd
  exact absurd (List.append_eq_nil.mp hd).1 (by decide)

lemma append_https_slash_ne_empty (v : String) : ("https://" ++ v) ≠ "" := by
  intro h
  have hd := congrArg String.data h
  rw [data_append] at hd
  exact absurd (List.append_eq_nil.mp hd).1 (by decide)

lemma normCore_eq_of_slashes (v : String) (h0 : v ≠ "") (h1 : pyStartsWith v "//" = true) :
    normCore v = "https:" ++ v := by
  unfold normCore
  rw [if_neg h0, if_pos h1]

lemma normCore_eq_of_plain (v : String) (h0 : v ≠ "") (h1 : pyStartsWith v "//" = false)
    (h2 : (pyStartsWith v "http://" || pyStartsWith v "https://") = false) :
    normCore v = "https://" ++ v := by
  unfold normCore
  rw [h1, h2]
  simp [h0]

lemma normCore_eq_of_scheme (v : String) (h0 : v ≠ "") (h1 : pyStartsWith v "//" = false)
    (h2 : (pyStartsWith v "http://" || pyStartsWith v "https://") = true) :
    normCore v = v := by
  unfold normCore
  rw [h1, h2]
  simp [h0]

lemma bool_eq_false_of_ne_true {b : Bool} (h : ¬b = true) : b = false := by
  cases b
  · rfl
  · exact absurd rfl h

lemma normCore_strip_fixed (v : String) (hv : pyStrip v = v) :
    pyStrip (normCore v) = normCore v := by
  by_cases h0 : v = ""
  · subst h0; decide
  · by_cases h1 : pyStartsWith v "//" = true
    · rw [normCore_eq_of_slashes v h0 h1]
      exact pyStrip_append_fixed "https:" v 'h' rfl (by decide) hv h0
    · have h1f := bool_eq_false_of_ne_true h1
      by_cases h2 : (pyStartsWith v "http://" || pyStartsWith v "https://") = true
      · rw [normCore_eq_of_scheme v h0 h1f h2]
        exact hv
      · have h2f := bool_eq_false_of_ne_true h2
        rw [normCore_eq_of_plain v h0 h1f h2f]
        exact pyStrip_append_fixed "https://" v 'h' rfl (by decide) hv h0

lemma normCore_idem_aux (v : String) : normCore (normCore v) = normCore v := by
  by_cases h0 : v = ""
  · subst h0; decide
  · by_cases h1 : pyStartsWith v "//" = true
    · rw [normCore_eq_of_slashes v h0 h1]
      apply normCore_eq_of_scheme
      · exact append_https_colon_ne_empty v
      · exact starts_slash_https_colon v
      · rw [starts_https_of_slashes v h1, Bool.or_true]
    · have h1f := bool_eq_false_of_ne_true h1
      by_cases h2 : (pyStartsWith v "http://" || pyStartsWith v "https://") = true
      · rw [normCore_eq_of_scheme v h0 h1f h2]
        exact normCore_eq_of_scheme v h0 h1f h2
      · have h2f := bool_eq_false_of_ne_true h2
        rw [normCore_eq_of_plain v h0 h1f h2f]
        apply normCore_eq_of_scheme
        · exact append_https_slash_ne_empty v
        · exact starts_slash_https_slash v
        · rw [starts_https_https_slash v, Bool.or_true]

/-! ### Lemmas about the parsing and main pipeline -/

lemma string_eq_empty_of_data_nil (s : String) (h : s.data = []) : s = "" := by
  cases s with
  | mk d =>
    subst h
    rfl

lemma pyLower_ne_empty (s : String) (h : s ≠ "") : pyLower s ≠ "" := by
  intro hc
  have hd : s.data.map Char.toLower = [] := congrArg String.data hc
  exact h (string_eq_empty_of_data_nil s (List.map_eq_nil_iff.mp hd))

lemma dedupeRowsAux_subset : ∀ (l : List PropertyRow) (seen : List String) (r : PropertyRow),
    r ∈ dedupeRowsAux seen l → r ∈ l := by
  intro l
  induction l with
  | nil => intro seen r h; simp [dedupeRowsAux] at h
  | cons p rest ih =>
    intro seen r h
    simp only [dedupeRowsAux] at h
    split at h
    · exact List.mem_cons_of_mem p (ih _ r h)
    · rcases List.mem_cons.mp h with rfl | h2
      · exact List.mem_cons_self _ _
      · exact List.mem_cons_of_mem p (ih _ r h2)

/-- Zeta-reduced unfolding of `parse_zoominfo_email`. -/
lemma parse_zoominfo_eq (E : ExternalServices) (body : String) :
    parse_zoominfo_email E body =
      if pyStrip body = "" then []
      else if (strContains (pyLower (pyStrip body)) "<a"
          && strContains (pyLower (pyStrip body)) "</a>") = true then
        dedupeRowsAux [] ((E.anchorTexts (pyStrip body)).filterMap (fun t =>
          if pyStrip t = "" then none
          else if (pyStrip t).length < 2 then none
          else some { hotel_name := pyStrip t }))
      else
        (((splitLinesOf (pyStrip body)).map pyStrip).filter (fun ln => ln ≠ "")).filterMap
          (fun ln =>
            match E.zoomLineMatch (wsCollapse ln) with
            | some (g1, g2, g3) =>
              if pyStrip g1 = "" then none
              else some { hotel_name := pyStrip g1, category := some (pyStrip g2),
                          score := some g3 }
            | none => none) := rfl

/-- Every row produced by `parse_zoominfo_email` carries a name that is
already stripped and non-empty: both branches of the source guard on
`if name:` after stripping. -/
lemma parse_row_names (E : ExternalServices) (body : String) :
    ∀ r ∈ parse_zoominfo_email E body,
      pyStrip r.hotel_name = r.hotel_name ∧ r.hotel_name ≠ "" := by
  intro r hr
  rw [parse_zoominfo_eq] at hr
  split at hr
  · simp at hr
  · split at hr
    · have hrows := dedupeRowsAux_subset _ [] r hr
      obtain ⟨t, _, ht⟩ := List.mem_filterMap.mp hrows
      split at ht
      · exact absurd ht (by simp)
      · split at ht
        · exact absurd ht (by simp)
        · rename_i hne _
          obtain rfl := Option.some.injEq _ _ ▸ ht
          refine ⟨?_, ?_⟩
          · exact congrArg String.mk (stripChars_idem _)
          · exact hne
    · obtain ⟨ln, _, ht⟩ := List.mem_filterMap.mp hr
      cases hm : E.zoomLineMatch (wsCollapse ln) with
      | none =>
        rw [hm] at ht
        exact absurd ht (by simp)
      | some g =>
        obtain ⟨g1, g2, g3⟩ := g
        rw [hm] at ht
        dsimp only at ht
        by_cases hne : pyStrip g1 = ""
        · rw [if_pos hne] at ht
          exact absurd ht (by simp)
        · rw [if_neg hne] at ht
          obtain rfl := Option.some.injEq _ _ ▸ ht
          exact ⟨congrArg String.mk (stripChars_idem _), hne⟩

lemma cleanPropsAux_cons_ne_nil (p : PropertyRow) (rest : List PropertyRow)
    (hp : pyLower (pyStrip p.hotel_name) ≠ "") :
    cleanPropsAux [] (p :: rest) ≠ [] := by
  simp only [cleanPropsAux]
  rw [if_neg]
  · simp
  · simp [hp]

/-- Zeta-reduced unfolding of `mainProperties`. -/
lemma mainProperties_eq (E : ExternalServices) (input : String) :
    mainProperties E input =
      if pyStrip input = "" then []
      else cleanPropsAux []
        (if detect_input_mode (pyStrip input) = "list" then
          if parse_zoominfo_email E (pyStrip input) = [] then
            [{ hotel_name := pyStrip input }]
          else parse_zoominfo_email E (pyStrip input)
        else [{ hotel_name := pyStrip input }]) := rfl

/-- Whenever the stripped input is non-empty, `main` iterates over a
non-empty property list. -/
lemma mainProperties_ne_nil (E : ExternalServices) (input : String)
    (h : pyStrip input ≠ "") : mainProperties E input ≠ [] := by
  rw [mainProperties_eq, if_neg h]
  have hfallback :
      cleanPropsAux [] [({ hotel_name := pyStrip input } : PropertyRow)] ≠ [] := by
    apply cleanPropsAux_cons_ne_nil
    show pyLower (pyStrip (pyStrip input)) ≠ ""
    rw [pyStrip_idem]
    exact pyLower_ne_empty _ h
  by_cases hd : detect_input_mode (pyStrip input) = "list"
  · rw [if_pos hd]
    by_cases hps : parse_zoominfo_email E (pyStrip input) = []
    · rw [if_pos hps]
      exact hfallback
    · obtain ⟨r, rest, hcons⟩ := List.exists_cons_of_ne_nil hps
      rw [if_neg hps, hcons]
      apply cleanPropsAux_cons_ne_nil
      have hr := parse_row_names E (pyStrip input) r
        (by rw [hcons]; exact List.mem_cons_self _ _)
      rw [hr.1]
      exact pyLower_ne_empty _ hr.2
  · rw [if_neg hd]
    exact hfallback

/-! ### Remaining helper lemmas -/

lemma best_conf_cases (l : List String) :
    (best_vendor_from_evidence l).2.2 = "High" ∨ (best_vendor_from_evidence l).2.2 = "Medium" ∨
      (best_vendor_from_evidence l).2.2 = "Low" := by
  by_cases h : l = []
  · subst h
    right; right; rfl
  · obtain ⟨u, hu, he⟩ := best_vendor_shape l h
    rw [he]
    dsimp only
    split
    · right; left; rfl
    · rcases classify_conf_cases u with hc | hc
      · left; exact hc
      · right; right; exact hc

lemma bot_patterns_lower_fixed : ∀ p ∈ BOT_BLOCK_PATTERNS, pyLower p = p := by decide

lemma pyTake_length_le (n : Nat) (s : String) : (pyTake n s).length ≤ n := by
  show (s.data.take n).length ≤ n
  rw [List.length_take]
  exact Nat.min_le_left _ _

/-- A trivial instantiation of the external collaborators: no anchors, no
regex matches, no gathered evidence or notes. -/
def trivialServices : ExternalServices :=
  { anchorTexts := fun _ => [], zoomLineMatch := fun _ => none,
    gatherEvidence := fun _ => [], gatherNotes := fun _ => [] }

/-- Gathered evidence consisting of 80 distinct booking-path URLs followed by
a SynXis vendor URL: the vendor URL wins the ranking but is cut off by the
`[:80]` truncation of `evidence_urls`. -/
def manyEvidence : List String :=
  ((List.range 80).map (fun i => "https://s" ++ toString i ++ ".co/book")) ++
    ["https://be.synxis.com/x"]


/-! ### Claim theorems -/

/-- C1 (amended): every assembled `BookingFinding` has at most 80
`evidence_urls`, and a non-empty `vendor_evidence_url` is always a member of
the full de-duplicated evidence list; it is moreover a member of
`evidence_urls` whenever the de-duplicated evidence has at most 80 entries
(the `[:80]` truncation can otherwise cut the chosen URL out of
`evidence_urls`). -/
theorem booking_finding_evidence_bound_and_membership :
    ∀ (hotel : String) (ev notes : List String),
      (assembleFinding hotel ev notes).evidence_urls.length ≤ 80 ∧
      ((assembleFinding hotel ev notes).vendor_evidence_url ≠ "" →
        (assembleFinding hotel ev notes).vendor_evidence_url ∈ dedupFirst ev) ∧
      ((dedupFirst ev).length ≤ 80 →
        (assembleFinding hotel ev notes).vendor_evidence_url ≠ "" →
        (assembleFinding hotel ev notes).vendor_evidence_url ∈
          (assembleFinding hotel ev notes).evidence_urls) := by
  intro hotel ev notes
  have hurl : (assembleFinding hotel ev notes).vendor_evidence_url =
      (best_vendor_from_evidence (dedupFirst ev)).2.1 := rfl
  have hev : (assembleFinding hotel ev notes).evidence_urls = (dedupFirst ev).take 80 := rfl
  have hmem : (assembleFinding hotel ev notes).vendor_evidence_url ≠ "" →
      (assembleFinding hotel ev notes).vendor_evidence_url ∈ dedupFirst ev := by
    intro hne
    rw [hurl] at hne ⊢
    by_cases hd : dedupFirst ev = []
    · exfalso
      apply hne
      rw [hd]
      rfl
    · obtain ⟨u, hu, he⟩ := best_vendor_shape _ hd
      rw [he]
      exact hu
  refine ⟨?_, hmem, ?_⟩
  · rw [hev, List.length_take]
    exact Nat.min_le_left _ _
  · intro hlen hne
    rw [hev, List.take_of_length_le hlen]
    exact hmem hne

theorem booking_finding_evidence_bound_and_membership_witness :
    (assembleFinding "H" ["https://be.synxis.com/x"] []).evidence_urls.length ≤ 80 ∧
    (assembleFinding "H" ["https://be.synxis.com/x"] []).vendor_evidence_url ∈
      dedupFirst ["https://be.synxis.com/x"] ∧
    (assembleFinding "H" ["https://be.synxis.com/x"] []).vendor_evidence_url ∈
      (assembleFinding "H" ["https://be.synxis.com/x"] []).evidence_urls :=
  ⟨(booking_finding_evidence_bound_and_membership "H" ["https://be.synxis.com/x"] []).1,
   (booking_finding_evidence_bound_and_membership "H" ["https://be.synxis.com/x"] []).2.1
     (by decide),
   (booking_finding_evidence_bound_and_membership "H" ["https://be.synxis.com/x"] []).2.2
     (by decide) (by decide)⟩

set_option maxRecDepth 4000 in
theorem evidence_url_not_in_truncated_evidence_urls :
    (assembleFinding "H" manyEvidence []).vendor_evidence_url = "https://be.synxis.com/x" ∧
    (assembleFinding "H" manyEvidence []).vendor_evidence_url ≠ "" ∧
    (assembleFinding "H" manyEvidence []).vendor_evidence_url ∉
      (assembleFinding "H" manyEvidence []).evidence_urls := by
  decide

/-- C2 (amended): the engine never emits confidence "None" — the confidence
of every assembled finding is "High", "Medium" or "Low"; in particular a
finding assembled from an empty evidence list has vendor "Unknown",
confidence "Low" and empty `evidence_urls`. -/
theorem confidence_never_none :
    ∀ (hotel : String) (ev notes : List String),
      ((assembleFinding hotel ev notes).confidence = "High" ∨
       (assembleFinding hotel ev notes).confidence = "Medium" ∨
       (assembleFinding hotel ev notes).confidence = "Low") ∧
      (assembleFinding hotel ev notes).confidence ≠ "None" ∧
      (ev = [] →
        (assembleFinding hotel ev notes).vendor = "Unknown" ∧
        (assembleFinding hotel ev notes).confidence = "Low" ∧
        (assembleFinding hotel ev notes).evidence_urls = []) := by
  intro hotel ev notes
  have hconf : (assembleFinding hotel ev notes).confidence =
      (best_vendor_from_evidence (dedupFirst ev)).2.2 := rfl
  have hcases := best_conf_cases (dedupFirst ev)
  rw [← hconf] at hcases
  refine ⟨hcases, ?_, ?_⟩
  · rcases hcases with h | h | h <;> rw [h] <;> decide
  · rintro rfl
    exact ⟨rfl, rfl, rfl⟩

theorem confidence_never_none_witness :
    (assembleFinding "W" [] []).vendor = "Unknown" ∧
    (assembleFinding "W" [] []).confidence = "Low" ∧
    (assembleFinding "W" [] []).evidence_urls = [] :=
  (confidence_never_none "W" [] []).2.2 rfl

theorem confidence_none_iff_violated :
    (assembleFinding "Hotel" [] []).vendor = "Unknown" ∧
    (assembleFinding "Hotel" [] []).evidence_urls = [] ∧
    (assembleFinding "Hotel" [] []).confidence = "Low" ∧
    ¬(assembleFinding "Hotel" [] []).confidence = "None" := by decide

/-- C3 (amended): a High-strength vendor match scores at least 100, strictly
above every non-vendor URL (whose score is at most 25); an Unknown URL scores
15 with a booking keyword (the Medium case) and 0 without; the empty
candidate list bypasses scoring and yields ("Unknown", "", "Low").  An
affiliate URL containing a booking keyword scores 25 and therefore outranks a
Medium URL, so the spec's Medium > Low ordering does not hold. -/
theorem score_band_separation :
    (∀ u, (classify_vendor_from_url u).2 = "High" → 100 ≤ scoreURL u) ∧
    (∀ u, (classify_vendor_from_url u).2 ≠ "High" → scoreURL u ≤ 25) ∧
    (∀ u, classify_vendor_from_url u = ("Unknown", "Low") →
      scoreURL u =
        if SCORE_HINT_KEYWORDS.any (fun x => strContains (pyLower u) x) then 15 else 0) ∧
    best_vendor_from_evidence [] = ("Unknown", "", "Low") :=
  ⟨scoreURL_of_high, scoreURL_of_not_high, scoreURL_of_unknown, rfl⟩

theorem score_band_separation_witness :
    100 ≤ scoreURL "https://be.synxis.com/x" ∧
    scoreURL "https://example.org/contact" ≤ 25 ∧
    scoreURL "https://example.com/book" =
      (if SCORE_HINT_KEYWORDS.any
          (fun x => strContains (pyLower "https://example.com/book") x)
       then 15 else 0) :=
  ⟨score_band_separation.1 "https://be.synxis.com/x" (by decide),
   score_band_separation.2.1 "https://example.org/contact" (by decide),
   score_band_separation.2.2.1 "https://example.com/book" (by decide)⟩

theorem medium_score_not_above_low_score :
    (best_vendor_from_evidence ["https://example.com/book"]).2.2 = "Medium" ∧
    (classify_vendor_from_url "https://reservations.com/x").2 = "Low" ∧
    scoreURL "https://example.com/book" < scoreURL "https://reservations.com/x" := by
  decide

/-- C4 (amended): for every input whose stripped form is non-empty, the run
produces exactly one `BookingFinding` per resolved property and the resolved
property list is non-empty (so at least one finding is produced), for any
behaviour of the external collaborators; for empty or pure-whitespace input
`main` instead returns early, producing no finding. -/
theorem engine_totality_on_nonempty_input :
    ∀ (E : ExternalServices) (input : String), pyStrip input ≠ "" →
      (mainFindings E input).length = (mainProperties E input).length ∧
      mainProperties E input ≠ [] :=
  fun E input h => ⟨List.length_map _ _, mainProperties_ne_nil E input h⟩

theorem engine_totality_on_nonempty_input_witness :
    (mainFindings trivialServices "Grand Hotel").length =
      (mainProperties trivialServices "Grand Hotel").length ∧
    mainProperties trivialServices "Grand Hotel" ≠ [] :=
  engine_totality_on_nonempty_input trivialServices "Grand Hotel" (by decide)

theorem no_finding_on_whitespace_input :
    mainFindings trivialServices " " = [] ∧ mainFindings trivialServices "" = [] := by
  decide

/-- C5 (amended): the classifier returns a known vendor with strength "High"
exactly when a vendor pattern occurs in the lowercased URL or its host;
otherwise the affiliate label with "Low" when an affiliate pattern occurs in
the host; otherwise "Unknown" with "Low", upgraded to "Medium" exactly when
the lowercased URL string — anywhere, host included, not only the path —
contains one of "/book", "/booking", "/reservations", "availability". -/
theorem classifier_case_analysis :
    (∀ url v, firstVendorMatch (pyLower url) (host url) VENDOR_PATTERNS = some v →
      classify_vendor_from_url url = (v, "High") ∧ v ∈ VENDOR_PATTERNS.map Prod.fst) ∧
    (∀ url, firstVendorMatch (pyLower url) (host url) VENDOR_PATTERNS = none →
      (AFFILIATE_PATTERNS.any (fun a => strContains (host url) a)) = true →
      classify_vendor_from_url url = ("Affiliate/OTA (Not official CRS)", "Low")) ∧
    (∀ url, firstVendorMatch (pyLower url) (host url) VENDOR_PATTERNS = none →
      (AFFILIATE_PATTERNS.any (fun a => strContains (host url) a)) = false →
      best_vendor_from_evidence [url] =
        ("Unknown", url,
          if BUMP_KEYWORDS.any (fun x => strContains (pyLower url) x) then "Medium"
          else "Low")) := by
  refine ⟨?_, ?_, ?_⟩
  · intro url v hm
    exact ⟨by rw [classify_eq, hm], firstVendorMatch_mem hm⟩
  · intro url hm ha
    rw [classify_eq, hm, if_pos ha]
  · intro url hm ha
    have haf : ¬((AFFILIATE_PATTERNS.any (fun a => strContains (host url) a)) = true) := by
      rw [ha]
      decide
    have hcls : classify_vendor_from_url url = ("Unknown", "Low") := by
      rw [classify_eq, hm, if_neg haf]
    obtain ⟨u, hu, he⟩ := best_vendor_shape [url] (by simp)
    obtain rfl : u = url := by simpa using hu
    rw [he, hcls]
    simp

theorem classifier_case_analysis_witness :
    classify_vendor_from_url "https://be.synxis.com/x" =
      ("SynXis (Sabre Hospitality)", "High") ∧
    classify_vendor_from_url "https://guestreservations.com/h" =
      ("Affiliate/OTA (Not official CRS)", "Low") ∧
    best_vendor_from_evidence ["https://example.org/contact"] =
      ("Unknown", "https://example.org/contact",
        if BUMP_KEYWORDS.any
            (fun x => strContains (pyLower "https://example.org/contact") x)
        then "Medium" else "Low") :=
  ⟨(classifier_case_analysis.1 "https://be.synxis.com/x" "SynXis (Sabre Hospitality)"
      (by decide)).1,
   classifier_case_analysis.2.1 "https://guestreservations.com/h" (by decide) (by decide),
   classifier_case_analysis.2.2 "https://example.org/contact" (by decide) (by decide)⟩

theorem medium_upgrade_without_path_keyword :
    (best_vendor_from_evidence ["https://availability.example.com/"]).2.2 = "Medium" ∧
    urlPath "https://availability.example.com/" = "/" ∧
    (BUMP_KEYWORDS.any
      (fun k => strContains (pyLower (urlPath "https://availability.example.com/")) k))
      = false := by
  decide

/-- C6 (amended): after normalization (which resolves protocol-relative and
scheme-less forms) the aggregator keeps exactly the first occurrence of each
normalized URL string, in first-seen order — equal to the canonical
first-occurrence deduplication, duplicate-free, membership-preserving and a
sublist of the normalized input; protocol-relative duplicates are merged.
Trailing-slash variants are distinct normalized URLs and are each kept. -/
theorem aggregator_dedup_first_seen :
    ∀ urls : List String,
      dedupFirst (urls.map normalize_url) = dedupSpec (urls.map normalize_url) ∧
      (dedupFirst (urls.map normalize_url)).Nodup ∧
      (∀ u, u ∈ dedupFirst (urls.map normalize_url) ↔ u ∈ urls.map normalize_url) ∧
      List.Sublist (dedupFirst (urls.map normalize_url)) (urls.map normalize_url) ∧
      dedupFirst (["https://a.com/x", "//a.com/x"].map normalize_url) =
        ["https://a.com/x"] :=
  fun urls =>
    ⟨dedupFirst_eq_dedupSpec _, nodup_dedupFirst _, fun u => mem_dedupFirst u _,
     sublist_dedupFirst _, by decide⟩

theorem trailing_slash_duplicates_not_merged :
    dedupFirst (["https://a.com/x", "https://a.com/x/"].map normalize_url) =
      ["https://a.com/x", "https://a.com/x/"] ∧
    specDedupKey "https://a.com/x" = specDedupKey "https://a.com/x/" := by decide

/-- C7: `looks_like_bot_block` returns true for any body that contains one of
the fixed blocking phrases case-insensitively (status codes play no role:
they are not even an input), and false for any body containing none of them —
including a booking page full of booking-UI keywords. -/
theorem bot_block_characterization :
    (∀ html, (∃ p ∈ BOT_BLOCK_PATTERNS, ciContains html p = true) →
        looks_like_bot_block html = true) ∧
    (∀ html, (∀ p ∈ BOT_BLOCK_PATTERNS, ciContains html p = false) →
        looks_like_bot_block html = false) := by
  constructor
  · rintro html ⟨p, hp, hc⟩
    have hlow : pyLower p = p := bot_patterns_lower_fixed p hp
    unfold ciContains at hc
    rw [hlow] at hc
    unfold looks_like_bot_block
    by_cases h0 : html = ""
    · exfalso
      subst h0
      revert hc
      fin_cases hp <;> decide
    · rw [if_neg h0]
      exact List.any_eq_true.mpr ⟨p, hp, hc⟩
  · intro html hall
    unfold looks_like_bot_block
    split
    · rfl
    · apply List.any_eq_false.mpr
      intro p hp
      have hthis := hall p hp
      unfold ciContains at hthis
      rw [bot_patterns_lower_fixed p hp] at hthis
      simp [hthis]

theorem bot_block_characterization_witness :
    looks_like_bot_block "Please Verify you are human to continue" = true ∧
    looks_like_bot_block "Rooms: check-in and check-out dates, availability calendar"
      = false :=
  ⟨bot_block_characterization.1 "Please Verify you are human to continue"
      ⟨"verify you are human", by decide, by decide⟩,
   bot_block_characterization.2 "Rooms: check-in and check-out dates, availability calendar"
      (by decide)⟩

/-- C8: an empty evidence list yields exactly ("Unknown", "", "Low") from the
vendor selector, and the assembled finding has vendor "Unknown", confidence
"Low", an empty evidence URL and an empty `evidence_urls` list. -/
theorem empty_candidates_low_confidence_finding :
    best_vendor_from_evidence [] = ("Unknown", "", "Low") ∧
    ∀ (hotel : String) (notes : List String),
      (assembleFinding hotel [] notes).vendor = "Unknown" ∧
      (assembleFinding hotel [] notes).confidence = "Low" ∧
      (assembleFinding hotel [] notes).vendor_evidence_url = "" ∧
      (assembleFinding hotel [] notes).evidence_urls = [] :=
  ⟨rfl, fun _ _ => ⟨rfl, rfl, rfl, rfl⟩⟩

/-- C9: `normalize_url` with no base URL is idempotent. -/
theorem normalize_url_idempotent :
    ∀ u : String, normalize_url (normalize_url u) = normalize_url u := by
  intro u
  unfold normalize_url
  rw [normCore_strip_fixed (pyStrip u) (pyStrip_idem u)]
  exact normCore_idem_aux (pyStrip u)

/-- C10: the notes of every assembled finding are truncated to at most 2000
characters. -/
theorem notes_length_bounded :
    ∀ (hotel : String) (ev notes : List String),
      (assembleFinding hotel ev notes).notes.length ≤ 2000 :=
  fun _ _ _ => pyTake_length_le 2000 _
